import Mathlib

/-!
Verification of the `zai.check` operation
(src/packages/zai/src/operations/check.ts) of the botpress-server
repository.

The TypeScript function `check` evaluates a natural-language boolean
condition against an input by calling a text-generation model.  It
truncates the input and the condition to token budgets, consults a
fingerprint cache kept in an example store, packs few-shot examples
into the remaining budget, invokes the model, parses the free-text
response into a boolean verdict plus explanation, and persists the
fresh verdict back to the store.

External collaborators (the tokenizer, the JSON serialization used for
the cache key, the hash function `fastHash`, the `stringify` utility,
the model provider and the example-store adapter) are not part of the
analysed source; they are modelled as abstract components of the
evaluation context `Ctx`, exactly at the interface the source uses.
JavaScript numbers appearing in the budget arithmetic are embedded as
`Nat`/`Int` with the floor semantics of `Math.floor`/`Math.max` (the
floating-point rounding of `0.5 * x` and `0.2 * x` coincides with
exact halving and fifthing on every realistic token count).
-/

/-! ### JavaScript string primitives, embedded over `List Char` -/

/-- Whitespace recognised by JavaScript `String.prototype.trim` (the
ASCII part, which is the only part that occurs in model output here). -/
def jsWhitespace (c : Char) : Bool :=
  c = ' ' || c = '\t' || c = '\n' || c = '\r' || c = '\x0b' || c = '\x0c'

/-- Embedding of `String.prototype.trim`: drop leading and trailing
whitespace. -/
def trimChars (l : List Char) : List Char :=
  ((l.dropWhile jsWhitespace).reverse.dropWhile jsWhitespace).reverse

/-- Embedding of `String.prototype.trim` on strings. -/
def jsTrim (s : String) : String :=
  String.mk (trimChars s.toList)

/-- Embedding of the JavaScript `x ?? ''` fallback on optional strings. -/
def orEmpty : Option String -> String
  | some s => s
  | none => ""

/-- Does the pattern `p` occur in `t` starting at index `i`?  Used to
embed `includes` and `lastIndexOf`. -/
def occursAt (t p : List Char) (i : Nat) : Bool :=
  p.isPrefixOf (t.drop i)

/-- Embedding of `String.prototype.includes`. -/
def containsSub (t p : List Char) : Bool :=
  (List.range (t.length + 1)).any (occursAt t p)

/-- Scan downward from index `n` for the largest index at which `p`
occurs in `t`. -/
def lastOccAux (t p : List Char) : Nat → Option Nat
  | 0 => if occursAt t p 0 then some 0 else none
  | n + 1 => if occursAt t p (n + 1) then some (n + 1) else lastOccAux t p n

/-- Largest start index of an occurrence of `p` in `t`, if any. -/
def lastIndexOfNat (t p : List Char) : Option Nat :=
  lastOccAux t p t.length

/-- Embedding of `String.prototype.lastIndexOf`: start index of the
last occurrence, `-1` when the pattern does not occur. -/
def jsLastIndexOf (t p : List Char) : Int :=
  match lastIndexOfNat t p with
  | some i => (i : Int)
  | none => -1

/-- Embedding of `String.prototype.replace(pattern, '')` with a string
pattern: JavaScript `replace` removes only the FIRST occurrence of the
pattern. -/
def removeFirst (t p : List Char) : List Char :=
  match t with
  | [] => []
  | c :: cs => if p.isPrefixOf (c :: cs) then (c :: cs).drop p.length else c :: removeFirst cs p

/-- Fuelled removal of every (left-to-right, non-overlapping)
occurrence of a pattern; the fuel bounds the number of steps (each
step consumes at least one character when the pattern is nonempty). -/
def removeAllFuel : Nat → List Char → List Char → List Char
  | 0, t, _ => t
  | _ + 1, [], _ => []
  | fuel + 1, c :: cs, p =>
    if p.isPrefixOf (c :: cs) then removeAllFuel fuel ((c :: cs).drop p.length) p
    else c :: removeAllFuel fuel cs p

/-- Removal of EVERY (left-to-right, non-overlapping) occurrence of a
pattern.  This is NOT what the source does; it is the operation the
specification's words describe, kept for comparison. -/
def removeAll (t p : List Char) : List Char :=
  removeAllFuel t.length t p

/-! ### Data model -/

/-- Universal value type standing for TypeScript `unknown` inputs: the
values actually occurring in the source are strings and arrays of
strings, but we keep the full JSON-like shape. -/
inductive JsVal where
  | null : JsVal
  | undef : JsVal
  | bool : Bool → JsVal
  | num : Int → JsVal
  | str : String → JsVal
  | arr : List JsVal → JsVal

/-- A few-shot example (source type `Example` in check.ts: `input`,
`check`, optional `reason`, optional `condition`). -/
structure Example where
  input : JsVal
  check : Bool
  reason : Option String
  condition : Option String

/-- Caller options of `zai.check` (`Options` in check.ts). -/
structure Options where
  examples : List Example

/-- A record returned by the store adapter's `getExamples` (fields of
it used by check.ts: `key`, `input`, `output`, `explanation`). -/
structure StoredExample where
  key : String
  input : String
  output : Bool
  explanation : Option String

/-- The record passed to the store adapter's `saveExample`
(check.ts lines 234-254). -/
structure SavedRecord where
  key : String
  taskType : String
  taskId : String
  input : String
  instructions : String
  costInput : Nat
  costOutput : Nat
  latency : Nat
  model : String
  tokensInput : Nat
  tokensOutput : Nat
  output : Bool
  explanation : String

/-- External tokenizer capability: `count` and `truncate`. -/
structure Tokenizer where
  count : String → Nat
  truncate : String → Nat → String

/-- External store adapter capability used on the read side.  The
query's `taskType`/`taskId` are fixed for a given context, so
`getExamples` is keyed here by the (truncated) input string. -/
structure Adapter where
  getExamples : String → List StoredExample

/-- Cost/latency metadata reported by the model invocation. -/
structure Meta where
  costInput : Nat
  costOutput : Nat
  latency : Nat
  tokensInput : Nat
  tokensOutput : Nat

/-- Evaluation context of one `check` invocation: the `ZaiContext`
fields the source reads, the abstract external collaborators, and the
environment's answers to the effectful questions the source asks (the
cancellation signal at the two checkpoints, the raw model response
text, whether the store write succeeds). -/
structure Ctx where
  /-- Cancellation signal state observed by `throwIfAborted` at entry. -/
  abortedAtEntry : Bool
  /-- Cancellation signal state observed just before `saveExample`. -/
  abortedAtSave : Bool
  tokenizer : Tokenizer
  /-- `model.input.maxTokens`. -/
  maxTokens : Nat
  /-- The `PROMPT_INPUT_BUFFER` overhead constant. -/
  promptInputBuffer : Nat
  taskId : Option String
  adapter : Option Adapter
  /-- The `stringify` utility (external to the analysed source). -/
  stringify : JsVal → String
  /-- The `fastHash` utility (external to the analysed source). -/
  fastHash : String → String
  /-- `JSON.stringify` of the key object, as a function of
  `taskType`, `taskId`, truncated input and truncated condition. -/
  encodeKey : String → Option String → String → String → String
  /-- Raw text of the model response handed to `transform`. -/
  modelText : String
  meta : Meta
  modelId : String
  /-- Whether the `saveExample` store write succeeds. -/
  saveOk : Bool

/-- Errors with which the `check` promise can reject. -/
inductive CheckErr where
  | cancelled : CheckErr
  | malformedVerdict : String → CheckErr
  | saveFailed : CheckErr
deriving DecidableEq

/-- The resolved value of the `check` promise. -/
structure CheckResult where
  value : Bool
  explanation : String
deriving DecidableEq

/-- Observable side effects of one invocation: which external calls
happened, which record (if any) was handed to `saveExample`, and which
examples were packed into the prompt. -/
structure Effects where
  tokenizerCalled : Bool
  storeQueried : Bool
  modelCalled : Bool
  savedRecord : Option SavedRecord
  packed : List Example

/-! ### The check pipeline, stage by stage -/

/-- Sentinel marker for a true verdict (check.ts line 53). -/
def TRUE : String := "■TRUE■"

/-- Sentinel marker for a false verdict (check.ts line 54). -/
def FALSE : String := "■FALSE■"

/-- Sentinel marker ending the response (check.ts line 55). -/
def END : String := "■END■"

/-- The fixed task type of this operation (check.ts line 72). -/
def taskType : String := "zai.check"

/-- JavaScript truthiness of the optional `taskId` string (`undefined`
and the empty string are falsy). -/
def truthy : Option String → Bool
  | none => false
  | some s => !s.isEmpty

/-- Removal of the first occurrence of each marker and label, in the
order the source applies `replace` (check.ts lines 214-219). -/
def stripMarks (t : List Char) : List Char :=
  removeFirst
    (removeFirst
      (removeFirst
        (removeFirst
          (removeFirst t TRUE.toList)
          FALSE.toList)
        END.toList)
      ("Final Answer:".toList))
    ("Analysis:".toList)

/-- Embedding of the `transform` callback (check.ts lines 205-230):
parse the raw response text into a verdict and an explanation, failing
when neither marker occurs. -/
def transform (text : String) : Except CheckErr (Bool × String) :=
  let t := text.toList
  let hasTrue := containsSub t TRUE.toList
  let hasFalse := containsSub t FALSE.toList
  if !hasTrue && !hasFalse then
    .error (.malformedVerdict text)
  else
    let explanation := trimChars (stripMarks t)
    let finalAnswer :=
      if hasTrue && hasFalse then
        decide (jsLastIndexOf t TRUE.toList > jsLastIndexOf t FALSE.toList)
      else hasTrue
    .ok (finalAnswer, String.mk (trimChars explanation))

/-- `PROMPT_COMPONENT = Math.max(model.input.maxTokens - PROMPT_INPUT_BUFFER, 100)`
(check.ts line 69); `Nat` subtraction truncates at 0 exactly where the
JavaScript difference is negative, and `max` with 100 agrees. -/
def promptComponent (ctx : Ctx) : Nat :=
  max (ctx.maxTokens - ctx.promptInputBuffer) 100

/-- The truncated input string (check.ts line 80); `Math.floor (0.5 * c)`
is `c / 2` on `Nat`. -/
def inputAsString (ctx : Ctx) (input : JsVal) : String :=
  ctx.tokenizer.truncate (ctx.stringify input) (promptComponent ctx / 2)

/-- The truncated condition (check.ts line 81); `Math.floor (0.2 * c)`
is `c / 5` on `Nat`. -/
def truncCondition (ctx : Ctx) (condition : String) : String :=
  ctx.tokenizer.truncate condition (promptComponent ctx / 5)

/-- `EXAMPLES_TOKENS` (check.ts line 84): whatever remains of the
component after the truncated input and condition are counted. -/
def examplesTokens (ctx : Ctx) (input : JsVal) (condition : String) : Int :=
  (promptComponent ctx : Int)
    - (ctx.tokenizer.count (inputAsString ctx input) : Int)
    - (ctx.tokenizer.count (truncCondition ctx condition) : Int)

/-- The fingerprint cache key (check.ts lines 86-93): hash of the
serialized `taskType`/`taskId`/truncated-input/truncated-condition
tuple.  Note its arguments: the caller options take no part. -/
def Key (ctx : Ctx) (input : JsVal) (condition : String) : String :=
  ctx.fastHash (ctx.encodeKey taskType ctx.taskId (inputAsString ctx input) (truncCondition ctx condition))

/-- Examples retrieved from the store (check.ts lines 95-102): only
when `taskId` is truthy and an adapter is configured. -/
def retrievedExamples (ctx : Ctx) (input : JsVal) : List StoredExample :=
  match ctx.adapter with
  | some ad => if truthy ctx.taskId then ad.getExamples (inputAsString ctx input) else []
  | none => []

/-- The exact-fingerprint cache lookup (check.ts line 104). -/
def exactMatch (ctx : Ctx) (input : JsVal) (condition : String) : Option StoredExample :=
  (retrievedExamples ctx input).find? (fun x => x.key == Key ctx input condition)

/-- The fixed built-in fallback example pool (check.ts lines 109-123). -/
def defaultExamples : List Example :=
  [⟨JsVal.str "50 Cent", true,
    some "50 Cent is widely recognized as a public personality.",
    some "Is the input a public personality?"⟩,
   ⟨JsVal.arr [JsVal.str "apple", JsVal.str "banana", JsVal.str "carrot", JsVal.str "house"], false,
    some "The list contains a house, which is not a fruit. Also, the list contains a carrot, which is a vegetable.",
    some "Is the input exclusively a list of fruits?"⟩]

/-- Store-retrieved examples mapped to the `Example` shape, followed by
the caller-supplied examples (check.ts lines 125-128). -/
def userExamples (ctx : Ctx) (input : JsVal) (options : Options) : List Example :=
  (retrievedExamples ctx input).map (fun e => ⟨JsVal.str e.input, e.output, e.explanation, none⟩)
    ++ options.examples

/-- Modelled from the spec: `takeUntilTokens` lives in
src/packages/zai/src/utils, which is not part of the analysed source.
The specification describes it as a greedy scan in pool order that
includes an element only while the running token total stays within
the budget and stops at the first element that would exceed it. -/
def takeUntilTokens {α : Type} (l : List α) (budget : Int) (cost : α → Nat) : List α :=
  match l with
  | [] => []
  | x :: xs => if (cost x : Int) ≤ budget then x :: takeUntilTokens xs (budget - cost x) cost else []

/-- Token cost charged per example when packing (check.ts line 167). -/
def exampleCost (ctx : Ctx) (el : Example) : Nat :=
  ctx.tokenizer.count (ctx.stringify el.input) + ctx.tokenizer.count (orEmpty el.reason)

/-- The candidate pool handed to `takeUntilTokens` (check.ts line 165):
the merged user examples, or the built-in fallback pool when the merge
is empty. -/
def pool (ctx : Ctx) (input : JsVal) (options : Options) : List Example :=
  if (userExamples ctx input options).isEmpty then defaultExamples
  else userExamples ctx input options

/-- The examples actually packed into the prompt (check.ts lines 164-168). -/
def packedExamples (ctx : Ctx) (input : JsVal) (condition : String) (options : Options) : List Example :=
  takeUntilTokens (pool ctx input options) (examplesTokens ctx input condition) (exampleCost ctx)

/-- The record handed to `saveExample` (check.ts lines 234-254). -/
def savedRecordOf (ctx : Ctx) (input : JsVal) (condition : String)
    (answer : Bool) (expl : String) : SavedRecord :=
  ⟨Key ctx input condition, taskType, orEmpty ctx.taskId,
   inputAsString ctx input, truncCondition ctx condition,
   ctx.meta.costInput, ctx.meta.costOutput, ctx.meta.latency,
   ctx.modelId, ctx.meta.tokensInput, ctx.meta.tokensOutput,
   answer, expl⟩

/-- Embedding of the whole `check` function (check.ts lines 57-261):
the returned promise outcome together with the observable effects.
The cancellation check at entry precedes every tokenizer/store/model
interaction; the cache hit returns the stored outcome directly; on a
miss the model response is parsed by `transform`; the fresh verdict is
persisted only when `taskId` is truthy, an adapter exists and the
signal is not aborted, and a failing `saveExample` is awaited without
a catch, so its failure rejects the promise. -/
def check (ctx : Ctx) (input : JsVal) (condition : String) (options : Options) :
    Except CheckErr CheckResult × Effects :=
  if ctx.abortedAtEntry then
    (.error .cancelled, ⟨false, false, false, none, []⟩)
  else
    match exactMatch ctx input condition with
    | some ex =>
      (.ok ⟨ex.output, orEmpty ex.explanation⟩,
       ⟨true, truthy ctx.taskId && ctx.adapter.isSome, false, none, []⟩)
    | none =>
      let packed := packedExamples ctx input condition options
      match transform ctx.modelText with
      | .error e => (.error e, ⟨true, truthy ctx.taskId && ctx.adapter.isSome, true, none, packed⟩)
      | .ok (finalAnswer, explanation) =>
        if truthy ctx.taskId && ctx.adapter.isSome && !ctx.abortedAtSave then
          let rcd := savedRecordOf ctx input condition finalAnswer explanation
          if ctx.saveOk then
            (.ok ⟨finalAnswer, jsTrim explanation⟩,
             ⟨true, truthy ctx.taskId && ctx.adapter.isSome, true, some rcd, packed⟩)
          else
            (.error .saveFailed,
             ⟨true, truthy ctx.taskId && ctx.adapter.isSome, true, some rcd, packed⟩)
        else
          (.ok ⟨finalAnswer, jsTrim explanation⟩,
           ⟨true, truthy ctx.taskId && ctx.adapter.isSome, true, none, packed⟩)

/-! ### Helper lemmas -/

theorem dropWhile_idem {α : Type} (p : α → Bool) (l : List α) :
    (l.dropWhile p).dropWhile p = l.dropWhile p := by
  induction l with
  | nil => rfl
  | cons a l ih =>
    by_cases h : p a
    · simpa [List.dropWhile_cons, h] using ih
    · simp [List.dropWhile_cons, h]

theorem dropWhile_eq_self_of_ne_head {α : Type} {p : α → Bool} {l : List α}
    (h : ∀ c cs, l = c :: cs → p c = false) : l.dropWhile p = l := by
  cases l with
  | nil => rfl
  | cons c cs => simp [List.dropWhile_cons, h c cs rfl]

theorem head_false_of_dropWhile_fix {α : Type} {p : α → Bool} {l : List α} {c : α} {cs : List α}
    (hfix : l.dropWhile p = l) (hl : l = c :: cs) : p c = false := by
  subst hl
  by_contra h
  rw [Bool.not_eq_false] at h
  rw [List.dropWhile_cons, if_pos h] at hfix
  have hlen := congrArg List.length hfix
  have hle : (List.dropWhile p cs).length ≤ cs.length := (List.dropWhile_suffix p).length_le
  simp only [List.length_cons] at hlen
  omega

theorem trimChars_idem (l : List Char) : trimChars (trimChars l) = trimChars l := by
  unfold trimChars
  set A := l.dropWhile jsWhitespace with hA
  have hAfix : A.dropWhile jsWhitespace = A := by rw [hA]; exact dropWhile_idem _ l
  set B := (A.reverse.dropWhile jsWhitespace).reverse with hB
  have hBA : B <+: A := by
    rw [hB]
    have hsuf : A.reverse.dropWhile jsWhitespace <:+ A.reverse := List.dropWhile_suffix _
    have := List.reverse_prefix.mpr hsuf
    simpa using this
  have hBfix : B.dropWhile jsWhitespace = B := by
    apply dropWhile_eq_self_of_ne_head
    intro c cs hBc
    obtain ⟨t, ht⟩ := hBA
    apply head_false_of_dropWhile_fix hAfix
    rw [← ht, hBc]
    rfl
  rw [hBfix, hB, List.reverse_reverse, dropWhile_idem]

theorem toList_mk (l : List Char) : (String.mk l).toList = l := rfl

theorem jsTrim_mk (l : List Char) : jsTrim (String.mk l) = String.mk (trimChars l) := rfl

/-! ### Occurrence characterization lemmas -/

/-- Predicate stating that `i` is the start of the LAST occurrence of
`p` in `t`. -/
def IsLastOccurrence (t p : List Char) (i : Nat) : Prop :=
  occursAt t p i = true ∧ ∀ j, occursAt t p j = true → j ≤ i

theorem occursAt_le_length {t p : List Char} {j : Nat} (hp : p ≠ []) (h : occursAt t p j = true) :
    j ≤ t.length := by
  by_contra hj
  push_neg at hj
  unfold occursAt at h
  rw [List.drop_eq_nil_of_le (le_of_lt hj)] at h
  cases p with
  | nil => exact hp rfl
  | cons a q => simp [List.isPrefixOf] at h

theorem lastOccAux_some_spec {t p : List Char} :
    ∀ n i, lastOccAux t p n = some i →
      occursAt t p i = true ∧ i ≤ n ∧ ∀ j, j ≤ n → occursAt t p j = true → j ≤ i := by
  intro n
  induction n with
  | zero =>
    intro i h
    unfold lastOccAux at h
    by_cases h0 : occursAt t p 0 = true
    · rw [if_pos h0] at h
      cases h
      exact ⟨h0, le_refl 0, fun j hj _ => hj⟩
    · rw [if_neg h0] at h
      cases h
  | succ n ih =>
    intro i h
    unfold lastOccAux at h
    by_cases hs : occursAt t p (n + 1) = true
    · rw [if_pos hs] at h
      cases h
      exact ⟨hs, le_refl _, fun j hj _ => hj⟩
    · rw [if_neg hs] at h
      obtain ⟨h1, h2, h3⟩ := ih i h
      refine ⟨h1, Nat.le_succ_of_le h2, fun j hj hocc => ?_⟩
      by_cases hjn : j = n + 1
      · exact absurd (hjn ▸ hocc) (by simpa using hs)
      · exact h3 j (by omega) hocc

theorem lastOccAux_none_spec {t p : List Char} :
    ∀ n, lastOccAux t p n = none → ∀ j, j ≤ n → occursAt t p j = false := by
  intro n
  induction n with
  | zero =>
    intro h j hj
    unfold lastOccAux at h
    by_cases h0 : occursAt t p 0 = true
    · rw [if_pos h0] at h; cases h
    · interval_cases j
      exact Bool.eq_false_iff.mpr (fun hx => h0 hx)
  | succ n ih =>
    intro h j hj
    unfold lastOccAux at h
    by_cases hs : occursAt t p (n + 1) = true
    · rw [if_pos hs] at h; cases h
    · rw [if_neg hs] at h
      by_cases hjn : j = n + 1
      · subst hjn
        exact Bool.eq_false_iff.mpr (fun hx => hs hx)
      · exact ih h j (by omega)

theorem containsSub_iff {t p : List Char} :
    containsSub t p = true ↔ ∃ j, j ≤ t.length ∧ occursAt t p j = true := by
  unfold containsSub
  rw [List.any_eq_true]
  constructor
  · rintro ⟨j, hj, hocc⟩
    exact ⟨j, Nat.lt_succ_iff.mp (List.mem_range.mp hj), hocc⟩
  · rintro ⟨j, hj, hocc⟩
    exact ⟨j, List.mem_range.mpr (Nat.lt_succ_of_le hj), hocc⟩

theorem lastIndexOfNat_spec {t p : List Char} (hp : p ≠ []) (hc : containsSub t p = true) :
    ∃ i, lastIndexOfNat t p = some i ∧ IsLastOccurrence t p i := by
  obtain ⟨j, hj, hocc⟩ := containsSub_iff.mp hc
  cases h : lastIndexOfNat t p with
  | none =>
    exact absurd hocc (by simpa using lastOccAux_none_spec t.length h j hj)
  | some i =>
    obtain ⟨h1, _, h3⟩ := lastOccAux_some_spec t.length i h
    exact ⟨i, rfl, h1, fun j' hj' => h3 j' (occursAt_le_length hp hj') hj'⟩

theorem isLastOccurrence_unique {t p : List Char} {i i' : Nat}
    (h : IsLastOccurrence t p i) (h' : IsLastOccurrence t p i') : i = i' :=
  le_antisymm (h'.2 i h.1) (h.2 i' h'.1)

theorem occursAt_of_isLast {t p : List Char} {i : Nat} (h : IsLastOccurrence t p i) :
    containsSub t p = true := by
  cases p with
  | nil =>
    apply containsSub_iff.mpr
    refine ⟨0, Nat.zero_le _, ?_⟩
    unfold occursAt
    simp [List.isPrefixOf]
  | cons a q =>
    exact containsSub_iff.mpr ⟨i, occursAt_le_length (List.cons_ne_nil a q) h.1, h.1⟩

/-! ### Transform case analysis -/

theorem transform_eq_of_none (text : String)
    (h1 : containsSub text.toList TRUE.toList = false)
    (h2 : containsSub text.toList FALSE.toList = false) :
    transform text = .error (.malformedVerdict text) := by
  unfold transform
  simp only [String.toList] at h1 h2
  simp [h1, h2]

theorem transform_eq_of_both (text : String)
    (h1 : containsSub text.toList TRUE.toList = true)
    (h2 : containsSub text.toList FALSE.toList = true) :
    transform text =
      .ok (decide (jsLastIndexOf text.toList TRUE.toList > jsLastIndexOf text.toList FALSE.toList),
        String.mk (trimChars (trimChars (stripMarks text.toList)))) := by
  unfold transform
  simp only [String.toList] at h1 h2
  simp [h1, h2]

theorem transform_eq_of_true_only (text : String)
    (h1 : containsSub text.toList TRUE.toList = true)
    (h2 : containsSub text.toList FALSE.toList = false) :
    transform text = .ok (true, String.mk (trimChars (trimChars (stripMarks text.toList)))) := by
  unfold transform
  simp only [String.toList] at h1 h2
  simp [h1, h2]

theorem transform_eq_of_false_only (text : String)
    (h1 : containsSub text.toList TRUE.toList = false)
    (h2 : containsSub text.toList FALSE.toList = true) :
    transform text = .ok (false, String.mk (trimChars (trimChars (stripMarks text.toList)))) := by
  unfold transform
  simp only [String.toList] at h1 h2
  simp [h1, h2]

theorem transform_ok_explanation {text : String} {a : Bool} {e : String}
    (h : transform text = .ok (a, e)) :
    e = String.mk (trimChars (stripMarks text.toList)) := by
  by_cases h1 : containsSub text.toList TRUE.toList = true
  · by_cases h2 : containsSub text.toList FALSE.toList = true
    · rw [transform_eq_of_both text h1 h2] at h
      rw [trimChars_idem] at h
      exact (congrArg Prod.snd (Except.ok.inj h)).symm
    · rw [transform_eq_of_true_only text h1 (Bool.not_eq_true _ ▸ h2)] at h
      rw [trimChars_idem] at h
      exact (congrArg Prod.snd (Except.ok.inj h)).symm
  · by_cases h2 : containsSub text.toList FALSE.toList = true
    · rw [transform_eq_of_false_only text (Bool.not_eq_true _ ▸ h1) h2] at h
      rw [trimChars_idem] at h
      exact (congrArg Prod.snd (Except.ok.inj h)).symm
    · rw [transform_eq_of_none text (Bool.not_eq_true _ ▸ h1) (Bool.not_eq_true _ ▸ h2)] at h
      cases h

theorem jsTrim_transform {text : String} {a : Bool} {e : String}
    (h : transform text = .ok (a, e)) : jsTrim e = e := by
  rw [transform_ok_explanation h, jsTrim_mk, trimChars_idem]

/-! ### Greedy packing lemmas -/

/-- Total token cost of a list of examples. -/
def costSum {α : Type} (cost : α → Nat) (l : List α) : Nat :=
  (l.map cost).sum

theorem takeUntilTokens_prefixOf {α : Type} (cost : α → Nat) :
    ∀ (l : List α) (b : Int), takeUntilTokens l b cost <+: l := by
  intro l
  induction l with
  | nil => intro b; simp [takeUntilTokens]
  | cons x xs ih =>
    intro b
    unfold takeUntilTokens
    by_cases h : (cost x : Int) ≤ b
    · rw [if_pos h]
      exact List.cons_prefix_cons.mpr ⟨rfl, ih _⟩
    · rw [if_neg h]
      exact List.nil_prefix

theorem takeUntilTokens_cost_le {α : Type} (cost : α → Nat) :
    ∀ (l : List α) (b : Int), 0 ≤ b → (costSum cost (takeUntilTokens l b cost) : Int) ≤ b := by
  intro l
  induction l with
  | nil => intro b hb; simpa [takeUntilTokens, costSum] using hb
  | cons x xs ih =>
    intro b hb
    unfold takeUntilTokens
    by_cases h : (cost x : Int) ≤ b
    · rw [if_pos h]
      have hrec := ih (b - (cost x : Int)) (by omega)
      simp only [costSum, List.map_cons, List.sum_cons] at hrec ⊢
      push_cast at hrec ⊢
      omega
    · rw [if_neg h]
      simpa [costSum] using hb

theorem takeUntilTokens_cons {α : Type} (cost : α → Nat) (x : α) (xs : List α) (b : Int) :
    takeUntilTokens (x :: xs) b cost =
      if (cost x : Int) ≤ b then x :: takeUntilTokens xs (b - cost x) cost else [] := rfl

theorem costSum_cons {α : Type} (cost : α → Nat) (x : α) (l : List α) :
    costSum cost (x :: l) = cost x + costSum cost l := by
  simp [costSum]

theorem takeUntilTokens_stop {α : Type} (cost : α → Nat) :
    ∀ (l : List α) (b : Int) (y : α),
      l[(takeUntilTokens l b cost).length]? = some y →
      b < (costSum cost (takeUntilTokens l b cost) : Int) + (cost y : Int) := by
  intro l
  induction l with
  | nil => intro b y hy; simp at hy
  | cons x xs ih =>
    intro b y hy
    by_cases hc : (cost x : Int) ≤ b
    · rw [takeUntilTokens_cons cost x xs b, if_pos hc] at hy ⊢
      simp only [List.length_cons, List.getElem?_cons_succ] at hy
      have hrec := ih (b - (cost x : Int)) y hy
      rw [costSum_cons]
      push_cast at hrec ⊢
      omega
    · rw [takeUntilTokens_cons cost x xs b, if_neg hc] at hy ⊢
      simp only [List.length_nil, List.getElem?_cons_zero] at hy
      cases hy
      simp only [costSum, List.map_nil, List.sum_nil]
      omega

/-- The examples budget is never negative, provided the tokenizer
honours its truncation bound. -/
theorem examplesTokens_nonneg (ctx : Ctx) (input : JsVal) (condition : String)
    (htok : ∀ t n, ctx.tokenizer.count (ctx.tokenizer.truncate t n) ≤ n) :
    0 ≤ examplesTokens ctx input condition := by
  unfold examplesTokens
  have h1 : ctx.tokenizer.count (inputAsString ctx input) ≤ promptComponent ctx / 2 := by
    unfold inputAsString; exact htok _ _
  have h2 : ctx.tokenizer.count (truncCondition ctx condition) ≤ promptComponent ctx / 5 := by
    unfold truncCondition; exact htok _ _
  have d2 : promptComponent ctx / 2 * 2 ≤ promptComponent ctx := Nat.div_mul_le_self _ _
  have d5 : promptComponent ctx / 5 * 5 ≤ promptComponent ctx := Nat.div_mul_le_self _ _
  omega

/-! ### Claim theorems -/

theorem isLast_of_bounded {t p : List Char} {i : Nat} (hp : p ≠ [])
    (h1 : occursAt t p i = true)
    (h2 : ∀ j, j ≤ t.length → occursAt t p j = true → j ≤ i) :
    IsLastOccurrence t p i :=
  ⟨h1, fun j hj => h2 j (occursAt_le_length hp hj) hj⟩

/-- C2: when the response contains both markers, the parsed verdict is
decided by last occurrence: it is `true` exactly when the last
occurrence of the TRUE marker starts after the last occurrence of the
FALSE marker (`lastIndexOf` comparison in check.ts line 224). -/
theorem c2_last_occurrence_wins (text : String) (iT iF : Nat)
    (hT : IsLastOccurrence text.toList TRUE.toList iT)
    (hF : IsLastOccurrence text.toList FALSE.toList iF)
    (a : Bool) (e : String) (h : transform text = .ok (a, e)) :
    a = true ↔ iF < iT := by
  have hcT : containsSub text.toList TRUE.toList = true := occursAt_of_isLast hT
  have hcF : containsSub text.toList FALSE.toList = true := occursAt_of_isLast hF
  rw [transform_eq_of_both text hcT hcF] at h
  obtain ⟨mT, hmT, hlT⟩ := lastIndexOfNat_spec (p := TRUE.toList) (by decide) hcT
  obtain ⟨mF, hmF, hlF⟩ := lastIndexOfNat_spec (p := FALSE.toList) (by decide) hcF
  have heT : iT = mT := isLastOccurrence_unique hT hlT
  have heF : iF = mF := isLastOccurrence_unique hF hlF
  subst heT heF
  have ha : a = decide (jsLastIndexOf text.toList TRUE.toList > jsLastIndexOf text.toList FALSE.toList) :=
    (congrArg Prod.fst (Except.ok.inj h)).symm
  have e1 : jsLastIndexOf text.toList TRUE.toList = (iT : Int) := by
    unfold jsLastIndexOf; rw [hmT]
  have e2 : jsLastIndexOf text.toList FALSE.toList = (iF : Int) := by
    unfold jsLastIndexOf; rw [hmF]
  rw [ha, e1, e2]
  simp

/-- C3: a response with neither marker fails with the malformed-verdict
error; a response with at least one marker parses successfully
(check.ts lines 206-211). -/
theorem c3_malformed_verdict (text : String) :
    ((containsSub text.toList TRUE.toList = false ∧ containsSub text.toList FALSE.toList = false) →
        transform text = .error (.malformedVerdict text))
    ∧ ((containsSub text.toList TRUE.toList = true ∨ containsSub text.toList FALSE.toList = true) →
        ∃ a e, transform text = .ok (a, e)) := by
  constructor
  · rintro ⟨h1, h2⟩
    exact transform_eq_of_none text h1 h2
  · intro h
    by_cases h1 : containsSub text.toList TRUE.toList = true
    · by_cases h2 : containsSub text.toList FALSE.toList = true
      · exact ⟨_, _, transform_eq_of_both text h1 h2⟩
      · exact ⟨_, _, transform_eq_of_true_only text h1 (Bool.not_eq_true _ ▸ h2)⟩
    · rcases h with h | h2
      · exact absurd h h1
      · exact ⟨_, _, transform_eq_of_false_only text (Bool.not_eq_true _ ▸ h1) h2⟩

/-- Removal of every occurrence of each marker and label, as the claim
words it (this is what the source does NOT do). -/
def claimedStrip (t : List Char) : List Char :=
  removeAll
    (removeAll
      (removeAll
        (removeAll
          (removeAll t TRUE.toList)
          FALSE.toList)
        END.toList)
      ("Final Answer:".toList))
    ("Analysis:".toList)

/-- The explanation described by the claim: every occurrence removed,
then trimmed. -/
def claimedExplanation (text : String) : String :=
  String.mk (trimChars (claimedStrip text.toList))

/-- A response repeating the TRUE marker. -/
def c5text : String := "■TRUE■ x ■TRUE■"

/-- C5 counterexample: on a response with two TRUE markers the source
keeps the second marker in the explanation (JavaScript `replace`
removes only the first occurrence), while the claim's
every-occurrence removal would strip both. -/
theorem c5_counterexample :
    transform c5text = .ok (true, ("x ■TRUE■" : String))
    ∧ claimedExplanation c5text = ("x" : String)
    ∧ ("x ■TRUE■" : String) ≠ ("x" : String) :=
  ⟨rfl, rfl, by decide⟩

/-- C5 amended: on a successful parse, the explanation equals the
response text with the FIRST occurrence of each of the three markers
and the two labels removed, in the order TRUE, FALSE, END,
"Final Answer:", "Analysis:", then trimmed (check.ts lines 213-220,
229). -/
theorem c5_first_occurrence_stripped (text : String) (a : Bool) (e : String)
    (h : transform text = .ok (a, e)) :
    e = String.mk (trimChars (stripMarks text.toList)) :=
  transform_ok_explanation h

/-- C6: the budget component, the two truncation budgets, the examples
remainder, and its non-negativity under the tokenizer's truncation
bound (check.ts lines 69-84). -/
theorem c6_budget_allocation (ctx : Ctx) (input : JsVal) (condition : String)
    (htok : ∀ t n, ctx.tokenizer.count (ctx.tokenizer.truncate t n) ≤ n) :
    promptComponent ctx = max (ctx.maxTokens - ctx.promptInputBuffer) 100
    ∧ inputAsString ctx input = ctx.tokenizer.truncate (ctx.stringify input) (promptComponent ctx / 2)
    ∧ truncCondition ctx condition = ctx.tokenizer.truncate condition (promptComponent ctx / 5)
    ∧ examplesTokens ctx input condition =
        (promptComponent ctx : Int)
          - (ctx.tokenizer.count (inputAsString ctx input) : Int)
          - (ctx.tokenizer.count (truncCondition ctx condition) : Int)
    ∧ 0 ≤ examplesTokens ctx input condition :=
  ⟨rfl, rfl, rfl, rfl, examplesTokens_nonneg ctx input condition htok⟩

/-- C7: the candidate pool is the store-retrieved examples (mapped to
the `Example` shape) followed by the caller examples, replaced by the
built-in fallback pool when empty; the packed examples are the greedy
in-order prefix of the pool whose accumulated cost stays within the
examples budget, stopping at the first example that would exceed it
(check.ts lines 109-171). -/
theorem c7_pool_and_packing (ctx : Ctx) (input : JsVal) (condition : String) (opts : Options)
    (htok : ∀ t n, ctx.tokenizer.count (ctx.tokenizer.truncate t n) ≤ n) :
    pool ctx input opts =
      (if (userExamples ctx input opts).isEmpty then defaultExamples
       else userExamples ctx input opts)
    ∧ userExamples ctx input opts =
        (retrievedExamples ctx input).map (fun e => ⟨JsVal.str e.input, e.output, e.explanation, none⟩)
          ++ opts.examples
    ∧ packedExamples ctx input condition opts <+: pool ctx input opts
    ∧ (costSum (exampleCost ctx) (packedExamples ctx input condition opts) : Int)
        ≤ examplesTokens ctx input condition
    ∧ (∀ y, (pool ctx input opts)[(packedExamples ctx input condition opts).length]? = some y →
        examplesTokens ctx input condition
          < (costSum (exampleCost ctx) (packedExamples ctx input condition opts) : Int)
              + (exampleCost ctx y : Int)) :=
  ⟨rfl, rfl,
   takeUntilTokens_prefixOf (exampleCost ctx) (pool ctx input opts) (examplesTokens ctx input condition),
   takeUntilTokens_cost_le (exampleCost ctx) (pool ctx input opts) (examplesTokens ctx input condition)
     (examplesTokens_nonneg ctx input condition htok),
   fun y hy =>
     takeUntilTokens_stop (exampleCost ctx) (pool ctx input opts) (examplesTokens ctx input condition) y hy⟩

/-- C8: the cancellation signal is consulted at the two checkpoints
the source has: set at entry, the call produces the cancelled outcome
with no tokenizer, store or model interaction (check.ts line 66); set
after the model returned a verdict, the verdict is still returned but
the cache write is skipped (check.ts line 233). -/
theorem c8_cancellation_checkpoints (ctx : Ctx) (input : JsVal) (condition : String) (opts : Options) :
    (ctx.abortedAtEntry = true →
      check ctx input condition opts = (.error .cancelled, ⟨false, false, false, none, []⟩))
    ∧ (∀ a e, ctx.abortedAtEntry = false → exactMatch ctx input condition = none →
        transform ctx.modelText = .ok (a, e) → ctx.abortedAtSave = true →
        check ctx input condition opts =
          (.ok ⟨a, jsTrim e⟩,
           ⟨true, truthy ctx.taskId && ctx.adapter.isSome, true, none,
            packedExamples ctx input condition opts⟩)) := by
  constructor
  · intro h
    simp [check, h]
  · intro a e h0 hm htr hs
    simp [check, h0, hm, htr, hs]

/-- C9: without a truthy `taskId` the store is never read (the
retrieval is empty, so the cache cannot hit), the model is always
invoked, and nothing is persisted (check.ts lines 95-102, 233). -/
theorem c9_no_taskId_no_cache (ctx : Ctx) (input : JsVal) (condition : String) (opts : Options)
    (h : truthy ctx.taskId = false) (h0 : ctx.abortedAtEntry = false) :
    retrievedExamples ctx input = []
    ∧ exactMatch ctx input condition = none
    ∧ (check ctx input condition opts).2.storeQueried = false
    ∧ (check ctx input condition opts).2.modelCalled = true
    ∧ (check ctx input condition opts).2.savedRecord = none := by
  have hr : retrievedExamples ctx input = [] := by
    unfold retrievedExamples
    cases ctx.adapter with
    | none => rfl
    | some ad => rw [h]; rfl
  have hm : exactMatch ctx input condition = none := by
    unfold exactMatch
    rw [hr]
    rfl
  refine ⟨hr, hm, ?_, ?_, ?_⟩
  all_goals
    cases htr : transform ctx.modelText with
    | error err => simp [check, h0, hm, htr, h]
    | ok v =>
      rcases v with ⟨a, e⟩
      simp [check, h0, hm, htr, h]

/-- C10: the fingerprint and the cache lookup take no part of the
caller options (compare the arguments of `Key` and `exactMatch`), so
on a cache hit two invocations differing only in `options.examples`
return the same stored answer and coincide entirely
(check.ts lines 86-107). -/
theorem c10_options_not_in_fingerprint (ctx : Ctx) (input : JsVal) (condition : String)
    (o1 o2 : Options) (ex : StoredExample)
    (hex : exactMatch ctx input condition = some ex) (h0 : ctx.abortedAtEntry = false) :
    check ctx input condition o1 = check ctx input condition o2
    ∧ (check ctx input condition o1).1 = .ok ⟨ex.output, orEmpty ex.explanation⟩ := by
  constructor
  · simp [check, h0, hex]
  · simp [check, h0, hex]

/-- C1: an exact fingerprint hit among the retrieved examples returns
the stored outcome and explanation with no model call and no store
write; consequently a second call with identical inputs against the
same store extended only by the record the first call saved returns
the identical result without invoking the model
(check.ts lines 86-107, 233-255). -/
theorem c1_exact_cache_hit (ctx : Ctx) (input : JsVal) (condition : String) (opts : Options)
    (h0 : ctx.abortedAtEntry = false) :
    (∀ ex, exactMatch ctx input condition = some ex →
      check ctx input condition opts =
        (.ok ⟨ex.output, orEmpty ex.explanation⟩,
         ⟨true, truthy ctx.taskId && ctx.adapter.isSome, false, none, []⟩))
    ∧ (∀ (ad : Adapter) (a : Bool) (e : String) (opts2 : Options) (ctx2 : Ctx),
        ctx.adapter = some ad →
        exactMatch ctx input condition = none →
        transform ctx.modelText = .ok (a, e) →
        truthy ctx.taskId = true →
        ctx.abortedAtSave = false →
        ctx.saveOk = true →
        ctx2 = { ctx with adapter := some ⟨fun s => ad.getExamples s ++
            [⟨Key ctx input condition, inputAsString ctx input, a, some e⟩]⟩ } →
        (check ctx input condition opts).1 = .ok ⟨a, jsTrim e⟩
        ∧ (check ctx2 input condition opts2).1 = .ok ⟨a, jsTrim e⟩
        ∧ (check ctx2 input condition opts2).2.modelCalled = false
        ∧ (check ctx2 input condition opts2).2.savedRecord = none) := by
  constructor
  · intro ex hex
    simp [check, h0, hex]
  · intro ad a e opts2 ctx2 had hm htr htid hsv hok hctx2
    have hfirst : (check ctx input condition opts).1 = .ok ⟨a, jsTrim e⟩ := by
      simp [check, h0, hm, htr, htid, had, hsv, hok]
    have h0' : ctx2.abortedAtEntry = false := by rw [hctx2]; exact h0
    have hret1 : retrievedExamples ctx input = ad.getExamples (inputAsString ctx input) := by
      unfold retrievedExamples
      rw [had, htid]
      rfl
    have hret2 : retrievedExamples ctx2 input =
        ad.getExamples (inputAsString ctx input)
          ++ [⟨Key ctx input condition, inputAsString ctx input, a, some e⟩] := by
      rw [hctx2]
      unfold retrievedExamples
      simp only []
      rw [show truthy ({ ctx with adapter := some ⟨fun s => ad.getExamples s ++
            [⟨Key ctx input condition, inputAsString ctx input, a, some e⟩]⟩ } : Ctx).taskId = true from htid]
      rfl
    have hKey : Key ctx2 input condition = Key ctx input condition := by
      rw [hctx2]; rfl
    have hnone : (ad.getExamples (inputAsString ctx input)).find?
        (fun x => x.key == Key ctx input condition) = none := by
      have hm' := hm
      unfold exactMatch at hm'
      rw [hret1] at hm'
      exact hm'
    have hfind : exactMatch ctx2 input condition =
        some ⟨Key ctx input condition, inputAsString ctx input, a, some e⟩ := by
      unfold exactMatch
      rw [hret2, hKey, List.find?_append, hnone]
      simp
    have htrim : jsTrim e = e := jsTrim_transform htr
    refine ⟨hfirst, ?_, ?_, ?_⟩
    · rw [show (check ctx2 input condition opts2).1 =
          .ok ⟨a, orEmpty (some e)⟩ from by simp [check, h0', hfind]]
      unfold orEmpty
      rw [htrim]
    · simp [check, h0', hfind]
    · simp [check, h0', hfind]

/-! ### Concrete instances -/

/-- A concrete tokenizer counting characters and truncating to a
character count; it honours the truncation bound. -/
def lenTokenizer : Tokenizer :=
  ⟨fun s => s.toList.length, fun s n => String.mk (s.toList.take n)⟩

theorem lenTokenizer_bound : ∀ t n, lenTokenizer.count (lenTokenizer.truncate t n) ≤ n := by
  intro t n
  show (String.mk (t.toList.take n)).toList.length ≤ n
  rw [toList_mk, List.length_take]
  omega

/-- A concrete `stringify`. -/
def showVal : JsVal → String
  | .str s => s
  | _ => "?"

/-- An adapter whose store is empty. -/
def emptyAdapter : Adapter := ⟨fun _ => []⟩

/-- A concrete serialization of the key tuple. -/
def encodeKeyConcat : String → Option String → String → String → String :=
  fun tt tid inp cond => tt ++ orEmpty tid ++ inp ++ cond

/-- A concrete evaluation context: empty store, a model answering
TRUE with the justification "yes". -/
def baseCtx : Ctx where
  abortedAtEntry := false
  abortedAtSave := false
  tokenizer := lenTokenizer
  maxTokens := 1000
  promptInputBuffer := 200
  taskId := some "task-1"
  adapter := some emptyAdapter
  stringify := showVal
  fastHash := id
  encodeKey := encodeKeyConcat
  modelText := "Analysis: yes Final Answer: ■TRUE■"
  meta := ⟨1, 2, 3, 4, 5⟩
  modelId := "model-1"
  saveOk := true

/-- Concrete input value. -/
def inputX : JsVal := JsVal.str "x"

/-- Concrete condition. -/
def condC : String := "cond"

/-- The record the first `check` call on `baseCtx` saves, as the store
returns it. -/
def storedYes : StoredExample :=
  ⟨Key baseCtx inputX condC, inputAsString baseCtx inputX, true, some ("yes")⟩

/-- The adapter of `baseCtx` extended by exactly the record the first
call saved. -/
def hitAdapter : Adapter := ⟨fun s => emptyAdapter.getExamples s ++ [storedYes]⟩

/-- The context of the second call: same everything, store extended by
the saved record. -/
def c1Ctx2 : Ctx := { baseCtx with adapter := some hitAdapter }

theorem c1_witness :
    (check baseCtx inputX condC ⟨[]⟩).1 = .ok ⟨true, jsTrim ("yes")⟩
    ∧ (check c1Ctx2 inputX condC ⟨[]⟩).1 = .ok ⟨true, jsTrim ("yes")⟩
    ∧ (check c1Ctx2 inputX condC ⟨[]⟩).2.modelCalled = false
    ∧ (check c1Ctx2 inputX condC ⟨[]⟩).2.savedRecord = none :=
  (c1_exact_cache_hit baseCtx inputX condC ⟨[]⟩ rfl).2
    emptyAdapter true ("yes") ⟨[]⟩ c1Ctx2 rfl rfl rfl rfl rfl rfl rfl

/-- A response mentioning FALSE first and TRUE last. -/
def c2text : String := "■FALSE■ no ■TRUE■"

theorem c2_witness :
    transform c2text = .ok (true, ("no" : String))
    ∧ (true = true ↔ 0 < 11) :=
  ⟨rfl,
   c2_last_occurrence_wins c2text 11 0
     (isLast_of_bounded (by decide) (by decide) (by decide))
     (isLast_of_bounded (by decide) (by decide) (by decide))
     true ("no") rfl⟩

/-- A response with no marker at all. -/
def noMarkText : String := "the model refused"

theorem c3_witness :
    transform noMarkText = .error (.malformedVerdict noMarkText)
    ∧ ∃ a e, transform c2text = .ok (a, e) :=
  ⟨(c3_malformed_verdict noMarkText).1 (by decide),
   (c3_malformed_verdict c2text).2 (Or.inl (by decide))⟩

theorem c5_witness :
    transform c2text = .ok (true, ("no" : String))
    ∧ ("no" : String) = String.mk (trimChars (stripMarks c2text.toList)) :=
  ⟨rfl, c5_first_occurrence_stripped c2text true ("no") rfl⟩

theorem c6_witness :
    (∀ t n, baseCtx.tokenizer.count (baseCtx.tokenizer.truncate t n) ≤ n)
    ∧ 0 ≤ examplesTokens baseCtx inputX condC :=
  ⟨lenTokenizer_bound,
   (c6_budget_allocation baseCtx inputX condC lenTokenizer_bound).2.2.2.2⟩

theorem c7_witness :
    packedExamples baseCtx inputX condC ⟨[]⟩ <+: pool baseCtx inputX ⟨[]⟩
    ∧ (costSum (exampleCost baseCtx) (packedExamples baseCtx inputX condC ⟨[]⟩) : Int)
        ≤ examplesTokens baseCtx inputX condC :=
  ⟨(c7_pool_and_packing baseCtx inputX condC ⟨[]⟩ lenTokenizer_bound).2.2.1,
   (c7_pool_and_packing baseCtx inputX condC ⟨[]⟩ lenTokenizer_bound).2.2.2.1⟩

/-- The context whose signal is aborted before entry. -/
def abortedCtx : Ctx := { baseCtx with abortedAtEntry := true }

/-- The context whose signal aborts between the model call and the
cache write. -/
def lateAbortCtx : Ctx := { baseCtx with abortedAtSave := true }

theorem c8_witness :
    check abortedCtx inputX condC ⟨[]⟩ = (.error .cancelled, ⟨false, false, false, none, []⟩)
    ∧ check lateAbortCtx inputX condC ⟨[]⟩ =
        (.ok ⟨true, jsTrim ("yes")⟩,
         ⟨true, truthy lateAbortCtx.taskId && lateAbortCtx.adapter.isSome, true, none,
          packedExamples lateAbortCtx inputX condC ⟨[]⟩⟩) :=
  ⟨(c8_cancellation_checkpoints abortedCtx inputX condC ⟨[]⟩).1 rfl,
   (c8_cancellation_checkpoints lateAbortCtx inputX condC ⟨[]⟩).2 true ("yes") rfl rfl rfl rfl⟩

/-- The context of a caller who supplied no task id. -/
def noTaskCtx : Ctx := { baseCtx with taskId := none }

theorem c9_witness :
    retrievedExamples noTaskCtx inputX = []
    ∧ exactMatch noTaskCtx inputX condC = none
    ∧ (check noTaskCtx inputX condC ⟨[]⟩).2.storeQueried = false
    ∧ (check noTaskCtx inputX condC ⟨[]⟩).2.modelCalled = true
    ∧ (check noTaskCtx inputX condC ⟨[]⟩).2.savedRecord = none :=
  c9_no_taskId_no_cache noTaskCtx inputX condC ⟨[]⟩ rfl rfl

theorem c10_witness :
    check c1Ctx2 inputX condC ⟨[]⟩ = check c1Ctx2 inputX condC ⟨defaultExamples⟩
    ∧ (check c1Ctx2 inputX condC ⟨[]⟩).1 = .ok ⟨storedYes.output, orEmpty storedYes.explanation⟩ :=
  c10_options_not_in_fingerprint c1Ctx2 inputX condC ⟨[]⟩ ⟨defaultExamples⟩ storedYes rfl rfl

/-- The context whose store write fails. -/
def c4Ctx : Ctx := { baseCtx with saveOk := false }

/-- C4: the source awaits `saveExample` without a catch
(check.ts lines 234-254), so a failing store write after a successful
fresh verdict rejects the `check` promise instead of returning the
computed result, contradicting the best-effort-persistence contract:
here the verdict was parsed successfully, yet the call errors. -/
theorem c4_store_failure_rejects :
    transform c4Ctx.modelText = .ok (true, ("yes" : String))
    ∧ (check c4Ctx inputX condC ⟨[]⟩).1 = .error .saveFailed :=
  ⟨rfl, rfl⟩
